import Mathlib

/-!
Verification of the kuroe execution engine's specification.

kuroe is a competitive-programming problem-authoring harness (generate /
validate / solve / judge). The repository ships its documentation
(README) and two example testlib programs (`example/checker.cpp`,
`example/validator.cpp`); the engine itself (language registry, compiler
cache, runner, checker adapter, batch orchestrator) is not among the
staged sources, so those components are modelled here from the
specification's own words, while the two example programs are embedded
from their C++ sources. Strings and streams are modelled as `List Char`;
process exit codes as `Int`; a crashed process has no exit code
(`Option Int`).
-/

namespace Kuroe

/-- Verdict vocabulary surfaced by the engine:
`OK, WA, PE, FAIL, RE, TLE, CE`. -/
inductive Verdict
  | OK | WA | PE | FAIL | RE | TLE | CE
deriving DecidableEq, Repr

/-- Modelled from the spec: external-checker mode decodes the checker
process's outcome from its exit code with the conventional four-way
mapping `0 → OK, 1 → WA, 2 → PE, 3 → FAIL`; any other exit code, or a
crash (no exit code at all), maps to `FAIL`. The function is total: every
outcome becomes a verdict, never a harness error. -/
def decodeCheckerOutcome : Option Int → Verdict
  | none => Verdict.FAIL
  | some c =>
    if c = 0 then Verdict.OK
    else if c = 1 then Verdict.WA
    else if c = 2 then Verdict.PE
    else Verdict.FAIL

/-- Trailing characters stripped before the exact-match comparison:
whitespace and newlines. -/
def isTrailingWS (c : Char) : Bool :=
  c = ' ' || c = '\n' || c = '\t' || c = '\r'

/-- Strip trailing whitespace/newline characters. -/
def rtrim (s : List Char) : List Char :=
  (s.reverse.dropWhile isTrailingWS).reverse

/-- Modelled from the spec: exact-match judging (no checker configured)
trims trailing whitespace/newlines from the solver output and the
expected answer and byte-compares the remainder; equal gives `OK`, else
`WA`. The judged input is part of the contract but does not influence
the comparison. -/
def judgeExact (_input solverOutput expectedAnswer : List Char) : Verdict :=
  if rtrim solverOutput = rtrim expectedAnswer then Verdict.OK else Verdict.WA

theorem dropWhile_append_all {p : Char → Bool} :
    ∀ {l₁ : List Char} (l₂ : List Char), (∀ c ∈ l₁, p c = true) →
      (l₁ ++ l₂).dropWhile p = l₂.dropWhile p
  | [], _, _ => rfl
  | c :: l₁, l₂, h => by
    simp only [List.cons_append, List.dropWhile_cons, h c (by simp)]
    exact dropWhile_append_all l₂ fun x hx => h x (by simp [hx])

theorem rtrim_append_newlines (s : List Char) (k : Nat) :
    rtrim (s ++ List.replicate k '\n') = rtrim s := by
  unfold rtrim
  rw [List.reverse_append, List.reverse_replicate,
    dropWhile_append_all s.reverse (by simp [isTrailingWS])]

/-- C2: exact-match judging returns `OK` on `judge(input, "42\n", "42")`,
`WA` on `judge(input, "42\n", "43")`, and appending (hence also removing)
trailing newlines on either side never changes the verdict. -/
theorem judgeExact_spec :
    (∀ i : List Char, judgeExact i ("42\n".data) ("42".data) = Verdict.OK) ∧
    (∀ i : List Char, judgeExact i ("42\n".data) ("43".data) = Verdict.WA) ∧
    (∀ (i s t : List Char) (k m : Nat),
      judgeExact i (s ++ List.replicate k '\n') (t ++ List.replicate m '\n') =
        judgeExact i s t) := by
  refine ⟨fun i => ?_, fun i => ?_, fun i s t k m => ?_⟩
  · unfold judgeExact
    decide
  · unfold judgeExact
    decide
  · unfold judgeExact
    rw [rtrim_append_newlines, rtrim_append_newlines]

/-- C1: the checker's exit code is decoded as `0 → OK`, `1 → WA`,
`2 → PE`, `3 → FAIL`; any other exit code, or a crash with no exit code,
also decodes to `FAIL`. -/
theorem checker_exit_decode :
    decodeCheckerOutcome (some 0) = Verdict.OK ∧
    decodeCheckerOutcome (some 1) = Verdict.WA ∧
    decodeCheckerOutcome (some 2) = Verdict.PE ∧
    decodeCheckerOutcome (some 3) = Verdict.FAIL ∧
    (∀ c : Int, c ≠ 0 → c ≠ 1 → c ≠ 2 → c ≠ 3 →
      decodeCheckerOutcome (some c) = Verdict.FAIL) ∧
    decodeCheckerOutcome none = Verdict.FAIL := by
  refine ⟨rfl, rfl, rfl, rfl, fun c h0 h1 h2 _ => ?_, rfl⟩
  simp [decodeCheckerOutcome, h0, h1, h2]

/-- C1 witness: the unmapped exit code `42` decodes to `FAIL`. -/
theorem checker_exit_decode_unmapped :
    decodeCheckerOutcome (some 42) = Verdict.FAIL :=
  checker_exit_decode.2.2.2.2.1 42 (by decide) (by decide) (by decide) (by decide)

/-- Decimal value of a digit string, most significant digit first. -/
def digitsToNat (ds : List Char) : Nat :=
  ds.foldl (fun a c => 10 * a + (c.toNat - 48)) 0

/-- Character test used when splitting a filename on dots. -/
def notDot (c : Char) : Bool := c != '.'

/-- Modelled from the spec: a generator filename of the form
`name.<N>.<ext>` carries a numeric case count `N` immediately before the
extension. The component between the last two dots, when it exists, is
nonempty and is all digits, is that count; otherwise there is none. -/
def numericSuffix (filename : List Char) : Option Nat :=
  match filename.reverse.dropWhile notDot with
  | '.' :: rest =>
    let comp := rest.takeWhile notDot
    match rest.dropWhile notDot with
    | '.' :: _ =>
      if comp ≠ [] ∧ comp.all Char.isDigit then some (digitsToNat comp.reverse)
      else none
    | _ => none
  | _ => none

/-- Modelled from the spec: the case count of a generator is the numeric
filename suffix when present, else the `--count` default. -/
def caseCount (filename : List Char) (countDefault : Nat) : Nat :=
  (numericSuffix filename).getD countDefault

/-- Modelled from the spec: the seed sequence of a case set is
`seed0, seed0 + 1, …, seed0 + count - 1`. -/
def seedSeq (seed0 count : Nat) : List Nat :=
  (List.range count).map (fun i => seed0 + i)

/-- Modelled from the spec: the generate workflow runs a generator once
per seed of its case spec; the list of seeds passed to it. -/
def generatedSeeds (filename : List Char) (countDefault seed0 : Nat) : List Nat :=
  seedSeq seed0 (caseCount filename countDefault)

theorem takeWhile_append_stop {p : Char → Bool} :
    ∀ {l₁ : List Char} {y : Char} (l₂ : List Char), (∀ c ∈ l₁, p c = true) →
      p y = false → (l₁ ++ y :: l₂).takeWhile p = l₁
  | [], y, l₂, _, hy => by simp [List.takeWhile_cons, hy]
  | c :: l₁, y, l₂, h, hy => by
    simp only [List.cons_append, List.takeWhile_cons, h c (by simp)]
    exact congrArg (c :: ·) (takeWhile_append_stop l₂ (fun x hx => h x (by simp [hx])) hy)

theorem isDigit_notDot {c : Char} (h : c.isDigit = true) : notDot c = true := by
  rcases eq : c == '.' with _ | _
  · simpa [notDot] using eq
  · rw [beq_iff_eq] at eq
    subst eq
    simp at h

theorem numericSuffix_of_suffix (name ds ext : List Char)
    (hne : ds ≠ []) (hds : ds.all Char.isDigit = true) (hext : ext.all notDot = true) :
    numericSuffix (name ++ '.' :: ds ++ '.' :: ext) = some (digitsToNat ds) := by
  have hdsrev : ∀ c ∈ ds.reverse, notDot c = true := by
    intro c hc
    exact isDigit_notDot (by simpa using (List.all_eq_true.1 hds c (by simpa using hc)))
  have hrev : (name ++ '.' :: ds ++ '.' :: ext).reverse =
      ext.reverse ++ '.' :: (ds.reverse ++ '.' :: name.reverse) := by
    simp
  unfold numericSuffix
  rw [hrev, dropWhile_append_all _ (fun c hc => by
    exact List.all_eq_true.1 hext c (by simpa using hc))]
  rw [List.dropWhile_cons]
  have hdot : notDot '.' = false := by decide
  rw [hdot]
  simp only [Bool.false_eq_true, if_false]
  rw [takeWhile_append_stop name.reverse hdsrev hdot,
    dropWhile_append_all _ hdsrev, List.dropWhile_cons, hdot]
  simp only [Bool.false_eq_true, if_false]
  have hcond : ds.reverse ≠ [] ∧ ds.reverse.all Char.isDigit = true := by
    constructor
    · simpa using hne
    · simpa using hds
  rw [if_pos hcond, List.reverse_reverse]

/-- C3: a generator filename `name.<N>.<ext>` (numeric component between
the last two dots, extension itself dot-free) yields exactly `N`
generated cases — the value denoted by the digit string — regardless of
the `--count` default, while a filename with no such numeric suffix
yields the `--count` default. -/
theorem generate_count_from_filename :
    (∀ (name ds ext : List Char) (d s0 : Nat),
      ds ≠ [] → ds.all Char.isDigit = true → ext.all notDot = true →
      (generatedSeeds (name ++ '.' :: ds ++ '.' :: ext) d s0).length = digitsToNat ds) ∧
    (∀ (f : List Char) (d s0 : Nat), numericSuffix f = none →
      (generatedSeeds f d s0).length = d) := by
  constructor
  · intro name ds ext d s0 hne hds hext
    unfold generatedSeeds seedSeq caseCount
    rw [numericSuffix_of_suffix name ds ext hne hds hext]
    simp
  · intro f d s0 hnone
    unfold generatedSeeds seedSeq caseCount
    rw [hnone]
    simp

/-- C3 witness: the filename `kuroe.5.cpp` with `--count` default 1
yields 5 cases. -/
theorem generate_count_from_filename_example :
    (generatedSeeds ("kuroe".data ++ '.' :: "5".data ++ '.' :: "cpp".data) 1 0).length = 5 := by
  have h := generate_count_from_filename.1 ("kuroe".data) ("5".data) ("cpp".data) 1 0
    (by decide) (by decide) (by decide)
  simpa using h

/-- C4: the seeds passed to a generator are exactly the contiguous block
`seed0, seed0 + 1, …, seed0 + count - 1`, in that order (`List.range'`),
with no repeats (`Nodup`), no gaps, and the right length. -/
theorem seeds_contiguous :
    ∀ (f : List Char) (d s0 : Nat),
      generatedSeeds f d s0 = List.range' s0 (caseCount f d) ∧
      (generatedSeeds f d s0).Nodup ∧
      (generatedSeeds f d s0).length = caseCount f d ∧
      ∀ (i : Nat) (h : i < (generatedSeeds f d s0).length),
        (generatedSeeds f d s0).get ⟨i, h⟩ = s0 + i := by
  intro f d s0
  have hr : generatedSeeds f d s0 = List.range' s0 (caseCount f d) := by
    unfold generatedSeeds seedSeq
    rw [List.range'_eq_map_range]
  refine ⟨hr, ?_, ?_, ?_⟩
  · rw [hr]
    exact List.nodup_range' s0 (caseCount f d)
  · rw [hr]
    simp
  · intro i h
    rw [List.get_of_eq hr ⟨i, h⟩]
    simp

/-- Modelled from the spec: a build artifact is either a runnable handle
(compiled binary, or the source itself for interpreted languages) or a
compile error carrying the captured stderr. -/
inductive BuildArtifact
  | runnable (handle : List Char)
  | ce (stderr : List Char)
deriving DecidableEq, Repr

/-- Modelled from the spec: the orchestrator's only mutable shared state,
the build cache keyed by canonical source path, together with a count of
compile-process launches (used to state memoization). -/
structure BuildState where
  cache : List (List Char × BuildArtifact)
  compileLaunches : Nat
deriving DecidableEq, Repr

/-- Modelled from the spec: single-flight memoized build. A cache hit
returns the cached artifact — success or failure alike — without
launching the compiler; a miss consults the compile oracle (the outcome
of actually compiling that path), caches the result and counts one
launch. -/
def build (oracle : List Char → BuildArtifact) (st : BuildState) (path : List Char) :
    BuildArtifact × BuildState :=
  match st.cache.lookup path with
  | some a => (a, st)
  | none => (oracle path, ⟨(path, oracle path) :: st.cache, st.compileLaunches + 1⟩)

/-- Modelled from the spec: a run's sequence of build requests, one per
work item referencing a source. -/
def buildAll (oracle : List Char → BuildArtifact) (st : BuildState)
    (reqs : List (List Char)) : BuildState :=
  reqs.foldl (fun s p => (build oracle s p).2) st

theorem build_hit {oracle : List Char → BuildArtifact} {st : BuildState}
    {p : List Char} {a : BuildArtifact} (h : st.cache.lookup p = some a) :
    build oracle st p = (a, st) := by
  unfold build
  rw [h]

theorem lookup_isSome_after_build (oracle : List Char → BuildArtifact)
    (st : BuildState) (p : List Char) :
    (((build oracle st p).2).cache.lookup p).isSome = true := by
  unfold build
  cases h : st.cache.lookup p with
  | some a =>
    dsimp only
    rw [h]
    rfl
  | none =>
    dsimp only
    rw [List.lookup_cons_self]
    rfl

theorem lookup_isSome_mono (oracle : List Char → BuildArtifact)
    (st : BuildState) (p q : List Char)
    (h : (st.cache.lookup q).isSome = true) :
    (((build oracle st p).2).cache.lookup q).isSome = true := by
  unfold build
  cases hp : st.cache.lookup p with
  | some a => exact h
  | none =>
    dsimp only
    rw [List.lookup_cons]
    cases hq : q == p
    · exact h
    · rfl

theorem lookup_isSome_buildAll (oracle : List Char → BuildArtifact) :
    ∀ (reqs : List (List Char)) (st : BuildState) (p : List Char),
      (st.cache.lookup p).isSome = true →
      ((buildAll oracle st reqs).cache.lookup p).isSome = true
  | [], _, _, h => h
  | q :: reqs, st, p, h =>
    lookup_isSome_buildAll oracle reqs ((build oracle st q).2) p
      (lookup_isSome_mono oracle st q p h)

theorem lookup_isSome_buildAll_mem (oracle : List Char → BuildArtifact) :
    ∀ (reqs : List (List Char)) (st : BuildState) (p : List Char), p ∈ reqs →
      ((buildAll oracle st reqs).cache.lookup p).isSome = true := by
  intro reqs
  induction reqs with
  | nil => intro st p h; cases h
  | cons q reqs ih =>
    intro st p h
    rcases List.mem_cons.1 h with h | h
    · subst h
      exact lookup_isSome_buildAll oracle reqs ((build oracle st p).2) p
        (lookup_isSome_after_build oracle st p)
    · exact ih ((build oracle st q).2) p h

theorem build_of_isSome {oracle : List Char → BuildArtifact} {st : BuildState}
    {p : List Char} (h : (st.cache.lookup p).isSome = true) :
    (build oracle st p).2 = st := by
  rcases Option.isSome_iff_exists.1 h with ⟨a, ha⟩
  rw [build_hit ha]

/-- C5: builds are memoized by source identity. A second build request
for the same path returns the already-cached artifact and leaves the
state — in particular the compile-launch count — unchanged; after any
batch of requests, re-requesting a path that occurred in the batch
launches no further compile; and a failed compile is cached exactly like
a success: the `ce` artifact is stored and returned. -/
theorem build_memoized :
    (∀ (oracle : List Char → BuildArtifact) (st : BuildState) (p : List Char),
      build oracle (build oracle st p).2 p =
        ((build oracle st p).1, (build oracle st p).2)) ∧
    (∀ (oracle : List Char → BuildArtifact) (st : BuildState) (p : List Char)
      (reqs : List (List Char)), p ∈ reqs →
      (build oracle (buildAll oracle st reqs) p).2 = buildAll oracle st reqs) ∧
    (∀ (oracle : List Char → BuildArtifact) (st : BuildState) (p e : List Char),
      st.cache.lookup p = none → oracle p = BuildArtifact.ce e →
      (build oracle st p).1 = BuildArtifact.ce e ∧
        ((build oracle st p).2).cache.lookup p = some (BuildArtifact.ce e)) := by
  refine ⟨fun oracle st p => ?_, fun oracle st p reqs h => ?_, fun oracle st p e h he => ?_⟩
  · cases h : st.cache.lookup p with
    | some a =>
      rw [build_hit h]
      rw [build_hit h]
    | none =>
      have h1 : build oracle st p =
          (oracle p, ⟨(p, oracle p) :: st.cache, st.compileLaunches + 1⟩) := by
        unfold build
        rw [h]
      rw [h1]
      exact build_hit (by simp)
  · exact build_of_isSome (lookup_isSome_buildAll_mem oracle reqs st p h)
  · have h1 : build oracle st p =
        (oracle p, ⟨(p, oracle p) :: st.cache, st.compileLaunches + 1⟩) := by
      unfold build
      rw [h]
    rw [h1, he]
    exact ⟨rfl, by simp⟩

/-- C5 witness: with a compile oracle that fails, building `a` after a
batch that already built `a` leaves the state untouched, and the failure
was cached. -/
theorem build_memoized_example :
    (build (fun _ => BuildArtifact.ce ['e'])
        (buildAll (fun _ => BuildArtifact.ce ['e']) ⟨[], 0⟩ [['a']]) ['a']).2 =
      buildAll (fun _ => BuildArtifact.ce ['e']) ⟨[], 0⟩ [['a']] ∧
    (build (fun _ => BuildArtifact.ce ['e']) ⟨[], 0⟩ ['a']).1 = BuildArtifact.ce ['e'] :=
  ⟨build_memoized.2.1 (fun _ => BuildArtifact.ce ['e']) ⟨[], 0⟩ ['a'] [['a']] (by decide),
   (build_memoized.2.2 (fun _ => BuildArtifact.ce ['e']) ⟨[], 0⟩ ['a'] ['e'] rfl rfl).1⟩

/-- Modelled from the spec: the outcome of one process invocation —
exit code (absent on crash or forced kill), captured stdout/stderr,
elapsed wall-clock time, and whether the deadline was exceeded. -/
structure ExecutionResult where
  exitCode : Option Int
  stdout : List Char
  stderr : List Char
  elapsedMs : Nat
  timedOut : Bool
deriving DecidableEq, Repr

/-- Modelled from the spec: one compile command run to completion; a
non-zero exit yields a `ce` artifact carrying the captured stderr,
otherwise the produced binary is the artifact. -/
def compileStep (exitCode : Int) (stderr binPath : List Char) : BuildArtifact :=
  if exitCode = 0 then BuildArtifact.runnable binPath else BuildArtifact.ce stderr

/-- Modelled from the spec: outcome classification of one case run —
deadline exceeded is `TLE`, a non-zero exit is `RE`, otherwise `OK`. -/
def classify (r : ExecutionResult) : Verdict :=
  if r.timedOut then Verdict.TLE
  else if r.exitCode = some 0 then Verdict.OK
  else Verdict.RE

/-- Modelled from the spec: one case against one artifact. A `ce`
artifact short-circuits to verdict `CE` with zero run invocations; a
runnable artifact is invoked exactly once (the second component counts
run invocations against the artifact). -/
def runCase (exec : List Char → ExecutionResult) (art : BuildArtifact) : Verdict × Nat :=
  match art with
  | BuildArtifact.ce _ => (Verdict.CE, 0)
  | BuildArtifact.runnable h => (classify (exec h), 1)

/-- Modelled from the spec: a batch of cases, each judged against its
artifact; per-item failures never abort the batch. -/
def processCases (exec : List Char → ExecutionResult) (arts : List BuildArtifact) :
    List (Verdict × Nat) :=
  arts.map (runCase exec)

/-- C6: a compile step exiting non-zero yields a `ce` artifact carrying
the captured stderr; every case depending on a `ce` artifact receives
verdict `CE` with zero run invocations; the batch still produces a row
for every case; and replacing one case's artifact with a `ce` never
changes any other case's result. -/
theorem compile_failure_gives_ce :
    (∀ (ec : Int) (err bin : List Char), ec ≠ 0 →
      compileStep ec err bin = BuildArtifact.ce err) ∧
    (∀ (exec : List Char → ExecutionResult) (err : List Char),
      runCase exec (BuildArtifact.ce err) = (Verdict.CE, 0)) ∧
    (∀ (exec : List Char → ExecutionResult) (arts : List BuildArtifact),
      (processCases exec arts).length = arts.length) ∧
    (∀ (exec : List Char → ExecutionResult) (arts : List BuildArtifact)
      (i : Nat) (err : List Char) (j : Nat), j ≠ i →
      (processCases exec (arts.set i (BuildArtifact.ce err)))[j]? =
        (processCases exec arts)[j]?) := by
  refine ⟨fun ec err bin h => ?_, fun exec err => rfl, fun exec arts => by
    simp [processCases], fun exec arts i err j hj => ?_⟩
  · unfold compileStep
    rw [if_neg h]
  · unfold processCases
    rw [List.map_set]
    exact List.getElem?_set_ne (fun h => hj h.symm)

/-- C6 witness: with a crashing run oracle, a `ce` artifact in a batch of
two leaves the other case's row unchanged, and itself judges `CE` with
zero runs. -/
theorem compile_failure_gives_ce_example :
    (processCases (fun _ => ⟨some 0, [], [], 1, false⟩)
        ([BuildArtifact.runnable ['s'], BuildArtifact.runnable ['t']].set 0
          (BuildArtifact.ce ['e'])))[1]? =
      (processCases (fun _ => ⟨some 0, [], [], 1, false⟩)
        [BuildArtifact.runnable ['s'], BuildArtifact.runnable ['t']])[1]? ∧
    runCase (fun _ => ⟨some 0, [], [], 1, false⟩) (BuildArtifact.ce ['e']) =
      (Verdict.CE, 0) :=
  ⟨compile_failure_gives_ce.2.2.2 (fun _ => ⟨some 0, [], [], 1, false⟩)
      [BuildArtifact.runnable ['s'], BuildArtifact.runnable ['t']] 0 ['e'] 1 (by decide),
   compile_failure_gives_ce.2.1 (fun _ => ⟨some 0, [], [], 1, false⟩) ['e']⟩

/-- Modelled from the spec: the full judge pipeline for one case. A
compile-error artifact short-circuits to `CE`; a timed-out solver is
`TLE`; a non-zero solver exit is `RE`; otherwise the verdict comes from
the checker adapter — exact-output comparison when no checker is
configured, else the decoded checker exit code (`none` standing for a
crashed checker). -/
def judgeFull (art : BuildArtifact) (res : ExecutionResult)
    (checkerExit : Option (Option Int)) (input solverOut expectedAns : List Char) : Verdict :=
  match art with
  | BuildArtifact.ce _ => Verdict.CE
  | BuildArtifact.runnable _ =>
    if res.timedOut then Verdict.TLE
    else if res.exitCode ≠ some 0 then Verdict.RE
    else
      match checkerExit with
      | none => judgeExact input solverOut expectedAns
      | some e => decodeCheckerOutcome e

/-- C8: the verdict vocabulary is exactly `OK, WA, PE, FAIL, RE, TLE,
CE`: every `Verdict` is one of the seven, every judged case's verdict is
one of the seven, and the judge pipeline assigns each case exactly one
verdict (it is a function of its inputs). -/
theorem verdict_vocabulary :
    (∀ v : Verdict, v = Verdict.OK ∨ v = Verdict.WA ∨ v = Verdict.PE ∨
      v = Verdict.FAIL ∨ v = Verdict.RE ∨ v = Verdict.TLE ∨ v = Verdict.CE) ∧
    (∀ (art : BuildArtifact) (res : ExecutionResult) (chk : Option (Option Int))
      (i so ea : List Char),
      judgeFull art res chk i so ea ∈
        [Verdict.OK, Verdict.WA, Verdict.PE, Verdict.FAIL, Verdict.RE,
          Verdict.TLE, Verdict.CE]) ∧
    (∀ (art : BuildArtifact) (res : ExecutionResult) (chk : Option (Option Int))
      (i so ea : List Char) (v w : Verdict),
      judgeFull art res chk i so ea = v → judgeFull art res chk i so ea = w → v = w) := by
  have hall : ∀ v : Verdict, v = Verdict.OK ∨ v = Verdict.WA ∨ v = Verdict.PE ∨
      v = Verdict.FAIL ∨ v = Verdict.RE ∨ v = Verdict.TLE ∨ v = Verdict.CE := by
    intro v
    cases v
    · exact Or.inl rfl
    · exact Or.inr (Or.inl rfl)
    · exact Or.inr (Or.inr (Or.inl rfl))
    · exact Or.inr (Or.inr (Or.inr (Or.inl rfl)))
    · exact Or.inr (Or.inr (Or.inr (Or.inr (Or.inl rfl))))
    · exact Or.inr (Or.inr (Or.inr (Or.inr (Or.inr (Or.inl rfl)))))
    · exact Or.inr (Or.inr (Or.inr (Or.inr (Or.inr (Or.inr rfl)))))
  refine ⟨hall, fun art res chk i so ea => ?_, fun art res chk i so ea v w hv hw => ?_⟩
  · rcases hall (judgeFull art res chk i so ea) with h | h | h | h | h | h | h <;>
      simp [h]
  · rw [← hv, ← hw]

/-- C8 witness: a concrete judged case's verdict is in the seven-value
vocabulary. -/
theorem verdict_vocabulary_example :
    judgeFull (BuildArtifact.runnable ['s']) ⟨some 0, [], [], 1, false⟩ none
        ['i'] ['4'] ['4'] ∈
      [Verdict.OK, Verdict.WA, Verdict.PE, Verdict.FAIL, Verdict.RE,
        Verdict.TLE, Verdict.CE] :=
  verdict_vocabulary.2.1 (BuildArtifact.runnable ['s']) ⟨some 0, [], [], 1, false⟩ none
    ['i'] ['4'] ['4']

/-- Modelled from the spec: work items paired with their discovery
index, starting from a given index. -/
def withIdx : Nat → List Verdict → List (Nat × Verdict)
  | _, [] => []
  | i, v :: vs => (i, v) :: withIdx (i + 1) vs

/-- Modelled from the spec: the discovery-ordered, index-keyed list of
case results. -/
def discovered (l : List Verdict) : List (Nat × Verdict) :=
  withIdx 0 l

/-- Modelled from the spec: the orchestrator buffers completed results
keyed by item index and renders row `i` from the buffered result for
index `i`, so rows appear in discovery order whatever the completion
order. -/
def emitReport (n : Nat) (completed : List (Nat × Verdict)) : List (Option Verdict) :=
  (List.range n).map (fun i => completed.lookup i)

theorem map_fst_withIdx : ∀ (l : List Verdict) (s : Nat),
    (withIdx s l).map Prod.fst = List.range' s l.length
  | [], _ => rfl
  | v :: vs, s => by
    simp only [withIdx, List.map_cons, List.length_cons, List.range'_succ]
    exact congrArg (List.cons s) (map_fst_withIdx vs (s + 1))

theorem mem_withIdx : ∀ (l : List Verdict) (s k : Nat) (h : k < l.length),
    (s + k, l.get ⟨k, h⟩) ∈ withIdx s l
  | v :: vs, s, 0, _ => by simp [withIdx]
  | v :: vs, s, k + 1, h => by
    have h' : k < vs.length := Nat.lt_of_succ_lt_succ h
    have ih := mem_withIdx vs (s + 1) k h'
    have heq : s + 1 + k = s + (k + 1) := by omega
    rw [heq] at ih
    exact List.mem_cons.2 (Or.inr ih)

theorem lookup_eq_of_mem_nodupkeys :
    ∀ (l : List (Nat × Verdict)) (k : Nat) (v : Verdict),
      (k, v) ∈ l → (l.map Prod.fst).Nodup → l.lookup k = some v
  | [], _, _, hm, _ => by cases hm
  | (k', v') :: l, k, v, hm, hnd => by
    rcases List.mem_cons.1 hm with he | ht
    · have hk : k = k' := congrArg Prod.fst he
      have hv : v = v' := congrArg Prod.snd he
      subst hk
      subst hv
      exact List.lookup_cons_self
    · have hk : k ≠ k' := by
        intro hkk
        subst hkk
        have : k ∈ l.map Prod.fst := List.mem_map.2 ⟨(k, v), ht, rfl⟩
        exact (List.nodup_cons.1 (by simpa using hnd)).1 this
      rw [List.lookup_cons]
      have : (k == k') = false := beq_false_of_ne hk
      rw [this]
      exact lookup_eq_of_mem_nodupkeys l k v ht (List.nodup_cons.1 (by simpa using hnd)).2

/-- C7: whatever order the cases complete in — any permutation of the
discovery-indexed results — the emitted report is exactly the results in
discovery order. -/
theorem report_discovery_order :
    ∀ (results : List Verdict) (completed : List (Nat × Verdict)),
      completed.Perm (discovered results) →
      emitReport results.length completed = results.map some := by
  intro results completed hperm
  have hnodup : (completed.map Prod.fst).Nodup := by
    have h1 : (completed.map Prod.fst).Perm ((discovered results).map Prod.fst) :=
      hperm.map Prod.fst
    have h2 : (discovered results).map Prod.fst = List.range' 0 results.length :=
      map_fst_withIdx results 0
    exact h1.nodup_iff.2 (by rw [h2]; exact List.nodup_range' 0 results.length)
  apply List.ext_getElem
  · simp [emitReport]
  · intro i h1 h2
    have hi : i < results.length := by simpa [emitReport] using h1
    have hmem : (i, results.get ⟨i, hi⟩) ∈ completed :=
      hperm.mem_iff.2 (by simpa using mem_withIdx results 0 i hi)
    have hlook : completed.lookup i = some (results.get ⟨i, hi⟩) :=
      lookup_eq_of_mem_nodupkeys completed i (results.get ⟨i, hi⟩) hmem hnodup
    simp [emitReport, hlook]

/-- C7 witness: three cases completing in the order 2, 0, 1 are still
reported in discovery order 0, 1, 2. -/
theorem report_discovery_order_example :
    emitReport 3 [(2, Verdict.TLE), (0, Verdict.OK), (1, Verdict.WA)] =
      [some Verdict.OK, some Verdict.WA, some Verdict.TLE] :=
  report_discovery_order [Verdict.OK, Verdict.WA, Verdict.TLE]
    [(2, Verdict.TLE), (0, Verdict.OK), (1, Verdict.WA)] (by decide)

/-- Character test: not a newline. A stream's first line is its longest
newline-free prefix. -/
def notNL (c : Char) : Bool := c != '\n'

/-- First line of a stream, as testlib's `readLine` reads it. -/
def firstLine (s : List Char) : List Char := s.takeWhile notNL

/-- Embedded from `src/example/checker.cpp`: the checker reads one line
from the solver output (`ouf.readLine()`) and one from the expected
answer (`ans.readLine()`) and quits `_ok` when they are equal, `_wa`
otherwise. The testlib quit protocol is modelled from the spec's checker
convention: `_ok` exits with code 0, `_wa` with code 1. -/
def checkerMain (ouf ans : List Char) : Int :=
  if firstLine ouf = firstLine ans then 0 else 1

/-- C9: the example checker's verdict depends only on the two first
lines: it exits 0 iff they are equal and 1 otherwise, never 2 (`PE`) or
3 (`FAIL`), and replacing either stream by one with the same first line
never changes the exit code. -/
theorem checker_first_line_only :
    ∀ (o a o' a' : List Char),
      (checkerMain o a = 0 ↔ firstLine o = firstLine a) ∧
      (checkerMain o a = 0 ∨ checkerMain o a = 1) ∧
      checkerMain o a ≠ 2 ∧ checkerMain o a ≠ 3 ∧
      (firstLine o = firstLine o' → firstLine a = firstLine a' →
        checkerMain o a = checkerMain o' a') := by
  intro o a o' a'
  unfold checkerMain
  by_cases h : firstLine o = firstLine a
  · rw [if_pos h]
    exact ⟨⟨fun _ => h, fun _ => rfl⟩, Or.inl rfl, by decide, by decide,
      fun ho ha => by rw [← ho, ← ha, if_pos h]⟩
  · rw [if_neg h]
    exact ⟨⟨fun h0 => absurd h0 (by decide), fun hh => absurd hh h⟩, Or.inr rfl,
      by decide, by decide, fun ho ha => by rw [← ho, ← ha, if_neg h]⟩

/-- C9 witness: content after the first line does not change the exit
code, and equal first lines exit 0. -/
theorem checker_first_line_only_example :
    checkerMain ("ok\nextra".data) ("ok\n".data) = checkerMain ("ok".data) ("ok".data) ∧
    checkerMain ("ok".data) ("ok".data) = 0 :=
  ⟨(checker_first_line_only ("ok\nextra".data) ("ok\n".data) ("ok".data)
      ("ok".data)).2.2.2.2 (by decide) (by decide),
   (checker_first_line_only ("ok".data) ("ok".data) [] []).1.mpr (by decide)⟩

/-- Embedded from `src/example/validator.cpp`: `registerValidation` puts
testlib in strict mode; `inf.readLine()` reads the first line and in
strict mode requires its terminating newline to be present (so an input
with no newline fails); `ensuref` requires the first seven characters of
the line to equal `example` (`s.substr(0, 7) == "example"`); then
`inf.readEof()` requires end of file right after the consumed newline.
Success exits 0, every failure exits non-zero with a diagnostic on
stderr. The first character the `dropWhile` leaves, when any, is the
terminating newline itself. -/
def validatorMain (input : List Char) : Except (List Char) Unit :=
  if input.dropWhile notNL = [] then
    Except.error ("unexpected end of file".data)
  else if (input.takeWhile notNL).take 7 = "example".data then
    if (input.dropWhile notNL).tail = [] then Except.ok ()
    else Except.error ("extra data after the first line".data)
  else Except.error ("testcase must start with example".data)

/-- Exit code of the embedded validator: 0 on success, testlib `_fail`
(3) on any failure. -/
def validatorExitCode (input : List Char) : Int :=
  match validatorMain input with
  | Except.ok _ => 0
  | Except.error _ => 3

/-- Diagnostic the embedded validator leaves on stderr: empty on
success, the failure message otherwise. -/
def validatorStderr (input : List Char) : List Char :=
  match validatorMain input with
  | Except.ok _ => []
  | Except.error m => m

/-- What the validator writes to standard output: the source never
writes there (it only reads `inf` and, on failure, reports on stderr). -/
def validatorStdout (_input : List Char) : List Char := []

theorem validatorMain_error_nonempty (input m : List Char)
    (h : validatorMain input = Except.error m) : m ≠ [] := by
  unfold validatorMain at h
  split_ifs at h
  all_goals injection h with hm
  all_goals rw [← hm]
  all_goals decide

theorem validatorMain_accept (l : List Char) (hnl : '\n' ∉ l)
    (h7 : l.take 7 = "example".data) :
    validatorMain (l ++ ['\n']) = Except.ok () := by
  have hall : ∀ c ∈ l, notNL c = true := by
    intro c hc
    rcases eq : c == '\n' with _ | _
    · simpa [notNL] using eq
    · rw [beq_iff_eq] at eq
      exact absurd (eq ▸ hc) hnl
  have ht : (l ++ ['\n']).takeWhile notNL = l :=
    takeWhile_append_stop [] hall (by decide)
  have hd : (l ++ ['\n']).dropWhile notNL = ['\n'] := by
    rw [dropWhile_append_all _ hall]
    decide
  unfold validatorMain
  rw [ht, hd, if_neg (by decide), if_pos h7, if_pos (by decide)]

/-- C10: the example validator exits 0 exactly on inputs that are one
newline-terminated line whose first seven characters are `example`,
followed immediately by end of file; every other input exits non-zero
with a nonempty diagnostic on stderr; and the validator writes nothing
to standard output. -/
theorem validator_accepts_iff :
    ∀ input : List Char,
      (validatorExitCode input = 0 ↔
        ∃ l : List Char, '\n' ∉ l ∧ l.take 7 = "example".data ∧ input = l ++ ['\n']) ∧
      (validatorExitCode input ≠ 0 → validatorStderr input ≠ []) ∧
      validatorStdout input = [] := by
  intro input
  refine ⟨⟨?_, ?_⟩, ?_, rfl⟩
  · intro h0
    unfold validatorExitCode at h0
    cases hv : validatorMain input with
    | error m =>
      rw [hv] at h0
      have h0' : (3 : Int) = 0 := h0
      exact absurd h0' (by decide)
    | ok u =>
      unfold validatorMain at hv
      split_ifs at hv with h1 h2 h3
      all_goals try (simp at hv)
      refine ⟨input.takeWhile notNL, ?_, h2, ?_⟩
      · intro hmem
        have := List.mem_takeWhile_imp hmem
        simp [notNL] at this
      · have hhead : notNL ((input.dropWhile notNL).head h1) = false :=
          List.head_dropWhile_not notNL input h1
        have hnl : (input.dropWhile notNL).head h1 = '\n' := by
          have hb : (!((input.dropWhile notNL).head h1 == '\n')) = false := hhead
          have hb' : ((input.dropWhile notNL).head h1 == '\n') = true := by
            simpa using hb
          exact beq_iff_eq.1 hb'
        have hdrop : input.dropWhile notNL = ['\n'] := by
          have hcons : (input.dropWhile notNL).head h1 :: (input.dropWhile notNL).tail =
              input.dropWhile notNL := List.head_cons_tail _ h1
          rw [← hcons, hnl, h3]
        calc input = input.takeWhile notNL ++ input.dropWhile notNL :=
              (List.takeWhile_append_dropWhile notNL input).symm
          _ = input.takeWhile notNL ++ ['\n'] := by rw [hdrop]
  · rintro ⟨l, hnl, h7, rfl⟩
    unfold validatorExitCode
    rw [validatorMain_accept l hnl h7]
  · intro hne
    cases hv : validatorMain input with
    | ok u =>
      unfold validatorExitCode at hne
      rw [hv] at hne
      exact absurd rfl hne
    | error m =>
      unfold validatorStderr
      rw [hv]
      exact validatorMain_error_nonempty input m hv

/-- C10 witness: the input `example\n` is accepted; the input `wrong\n`
is rejected with a nonempty diagnostic. -/
theorem validator_accepts_iff_example :
    validatorExitCode ("example\n".data) = 0 ∧
    validatorStderr ("wrong\n".data) ≠ [] :=
  ⟨(validator_accepts_iff ("example\n".data)).1.mpr
      ⟨"example".data, by decide, by decide, by decide⟩,
   (validator_accepts_iff ("wrong\n".data)).2.1 (by decide)⟩

end Kuroe
